import Mathlib

/-!
Verification development for the text-digest pipeline of the
smart-Email-summarizer repository (src/nlp_utils.py, assembled in src/app.py).

Python strings are modelled as `List Char` (Python indexes and slices by
character).  Each `re.sub` call of `clean_email_text` is embedded as a
left-to-right, non-overlapping scan that mirrors the Python regex semantics of
the concrete pattern (leftmost match, greedy/lazy quantifiers resolved as the
backtracking engine would resolve them for that pattern).  The external
capabilities (the transformers summarizer, the spaCy NER/sentence segmenter,
and dateparser) are opaque in the source and are therefore parameters of the
embedded functions.  Character classes `\s`, `\w`, `\d` and case folding are
modelled over ASCII (the repository's patterns are ASCII apart from two
typographic apostrophes, which have no case).
-/

/-- A Python `str`, modelled as its sequence of characters. -/
abbrev PyStr := List Char

/-- Python's regex class `\s` (ASCII part): space, tab, newline, CR, FF, VT. -/
def isPySpace (c : Char) : Bool :=
  c == ' ' || c == '\t' || c == '\n' || c == '\r' || c == '\x0c' || c == '\x0b'

/-- Python's regex class `\w` (ASCII part): letters, digits, underscore. -/
def isWordChar (c : Char) : Bool :=
  c.isAlphanum || c == '_'

/-- Python `str.lower()` (ASCII case folding). -/
def toLowerPy (s : PyStr) : PyStr := s.map Char.toLower

/-- Python `str.strip()`: drop leading and trailing whitespace. -/
def pyStrip (s : PyStr) : PyStr :=
  ((s.dropWhile isPySpace).reverse.dropWhile isPySpace).reverse

/-- Case-sensitive "starts with" on character lists. -/
def isPrefixP : PyStr → PyStr → Bool
  | [], _ => true
  | _ :: _, [] => false
  | p :: ps, c :: cs => p == c && isPrefixP ps cs

/-- Case-insensitive "starts with"; the pattern is given pre-lowercased. -/
def isPrefixCI : PyStr → PyStr → Bool
  | [], _ => true
  | _ :: _, [] => false
  | p :: ps, c :: cs => p == c.toLower && isPrefixCI ps cs

/-- Python's `pat in s` (contiguous, case-sensitive substring test). -/
def containsL (pat : PyStr) : PyStr → Bool
  | [] => pat.isEmpty
  | s@(_ :: r) => isPrefixP pat s || containsL pat r

/-- Scan for the first case-insensitive occurrence of `pat`; on success return
the rest of the text after that occurrence. -/
def findCI (pat : PyStr) : PyStr → Option PyStr
  | [] => if pat.isEmpty then some [] else none
  | s@(_ :: r) => if isPrefixCI pat s then some (s.drop pat.length) else findCI pat r

/-- Case-insensitive substring test. -/
def containsCI (pat s : PyStr) : Bool := (findCI pat s).isSome

/-- Consume a case-insensitive literal, returning the rest. -/
def litCI (pat : PyStr) (t : PyStr) : Option PyStr :=
  if isPrefixCI pat t then some (t.drop pat.length) else none

/-- One `re.sub` scan: at each position try the matcher; on a match emit its
replacement and resume after the consumed span, otherwise keep the character
and advance one position.  `fuel` is initialised to the text length; every
matcher used here consumes at least one character, so the fuel never runs out
before the text does. -/
def scanSub1 (m : PyStr → Option (PyStr × PyStr)) : Nat → PyStr → PyStr
  | 0, s => s
  | _ + 1, [] => []
  | f + 1, c :: rest =>
    match m (c :: rest) with
    | some (repl, after) => repl ++ scanSub1 m f after
    | none => c :: scanSub1 m f rest

/-- Run a `re.sub` scan over a whole string. -/
def runSub1 (m : PyStr → Option (PyStr × PyStr)) (s : PyStr) : PyStr :=
  scanSub1 m s.length s

/-- `re.sub` scan that additionally tracks the character just before the
current position (needed by the patterns that use the `\b` assertion); a
matcher returns (replacement, last consumed character, rest). -/
def scanSubP (m : Option Char → PyStr → Option (PyStr × Char × PyStr)) :
    Nat → Option Char → PyStr → PyStr
  | 0, _, s => s
  | _ + 1, _, [] => []
  | f + 1, prev, c :: rest =>
    match m prev (c :: rest) with
    | some (repl, lastc, after) => repl ++ scanSubP m f (some lastc) after
    | none => c :: scanSubP m f (some c) rest

/-- Run a prev-tracking `re.sub` scan over a whole string. -/
def runSubP (m : Option Char → PyStr → Option (PyStr × Char × PyStr)) (s : PyStr) : PyStr :=
  scanSubP m s.length none s

/-- For `re.sub` calls whose pattern is `LITERAL.*` with DOTALL (the match
always extends to the end of the string, replacement empty): truncate at the
first position where `check` fires. -/
def truncAtFirst (check : PyStr → Bool) : PyStr → PyStr
  | [] => []
  | c :: rest => if check (c :: rest) then [] else c :: truncAtFirst check rest

/-- nlp_utils.py line 43: matcher for `<[^>]+>` (replacement a single space). -/
def tagM (s : PyStr) : Option (PyStr × PyStr) :=
  match s with
  | '<' :: rest =>
    let seg := rest.takeWhile (fun c => c != '>')
    if seg.isEmpty then none
    else
      match rest.drop seg.length with
      | '>' :: tail => some ([' '], tail)
      | _ => none
  | _ => none

def pat47a : PyStr := "to unsubscribe from this group".toList

def pat47b : PyStr := "you received this message because".toList

/-- nlp_utils.py line 47: `To unsubscribe from this group.*|You received this
message because.*` with DOTALL: the match runs to the end of the string, so
the sub truncates at the first occurrence of either literal. -/
def check47 (s : PyStr) : Bool := isPrefixCI pat47a s || isPrefixCI pat47b s

/-- nlp_utils.py line 48, the body of `^\s*[\-_=]{3,}.*?Original Message.*$`
(MULTILINE, DOTALL) tested at a line start: optional whitespace, at least
three of `-_=`, and (after backtracking `{3,}` down to 3) a later
"Original Message"; the `.*$` then runs to the end of the string. -/
def dashCheck (s : PyStr) : Bool :=
  let t := s.dropWhile isPySpace
  let dashes := t.takeWhile (fun c => c == '-' || c == '_' || c == '=')
  decide (3 ≤ dashes.length) && containsCI ("original message".toList) (t.drop 3)

def sub48Aux : PyStr → PyStr
  | [] => []
  | c :: rest => c :: (if c == '\n' && dashCheck rest then [] else sub48Aux rest)

/-- nlp_utils.py line 48: delete from the first line start satisfying
`dashCheck` to the end of the string. -/
def sub48 (s : PyStr) : PyStr := if dashCheck s then [] else sub48Aux s

/-- nlp_utils.py line 49, match test for `On\s+.*?wrote:.*?\n>.*` (DOTALL,
IGNORECASE) at the current position: "on", at least one whitespace, a later
"wrote:", and "\n>" after it; the final `.*` runs to the end of the string. -/
def check49 (s : PyStr) : Bool :=
  isPrefixCI ("on".toList) s &&
  (match (s.drop 2).head? with
   | some c => isPySpace c
   | none => false) &&
  (match findCI ("wrote:".toList) (s.drop 3) with
   | some r => containsL ("\n>".toList) r
   | none => false)

/-- nlp_utils.py line 50: `Start your own s k o o l.*` (DOTALL). -/
def check50 (s : PyStr) : Bool := isPrefixCI ("start your own s k o o l".toList) s

/-- nlp_utils.py line 51: `Change notification settings.*` (DOTALL). -/
def check51 (s : PyStr) : Bool := isPrefixCI ("change notification settings".toList) s

/-- Completion part of line 52's pattern: `\d+\s*new notification`. -/
def dsnAt (t : PyStr) : Option PyStr :=
  let ds := t.takeWhile Char.isDigit
  if ds.isEmpty then none
  else litCI ("new notification".toList) ((t.drop ds.length).dropWhile isPySpace)

def findDSN : PyStr → Option PyStr
  | [] => none
  | s@(_ :: r) =>
    match dsnAt s with
    | some x => some x
    | none => findDSN r

/-- nlp_utils.py line 52: `AI Automation Agency Hub.*?\d+\s*new notification`
(DOTALL, IGNORECASE); the lazy `.*?` stops at the earliest completion. -/
def m52 (s : PyStr) : Option (PyStr × PyStr) :=
  match litCI ("ai automation agency hub".toList) s with
  | some t => (findDSN t).map (fun r => (([] : PyStr), r))
  | none => none

/-- `\d{1,2}` immediately followed by the literal `lit` (greedy: two digits
preferred, backtracking to one). -/
def d12Then (lit : Char) : PyStr → Option PyStr
  | a :: b :: c :: r =>
    if a.isDigit && b.isDigit && c == lit then some r
    else if a.isDigit && b == lit then some (c :: r)
    else none
  | [a, b] => if a.isDigit && b == lit then some [] else none
  | _ => none

def twoDigits : PyStr → Option PyStr
  | a :: b :: r => if a.isDigit && b.isDigit then some r else none
  | _ => none

def fourDigits : PyStr → Option PyStr
  | a :: b :: c :: d :: r =>
    if a.isDigit && b.isDigit && c.isDigit && d.isDigit then some r else none
  | _ => none

def litC (ch : Char) : PyStr → Option PyStr
  | c :: r => if c == ch then some r else none
  | [] => none

def ampm (t : PyStr) : Option PyStr :=
  match litCI ("am".toList) t with
  | some r => some r
  | none => litCI ("pm".toList) t

/-- nlp_utils.py line 53: `Since \d{1,2}:\d{2} (am|pm) \(Jul \d{1,2}, \d{4}\)`
(IGNORECASE), replacement empty. -/
def m53 (s : PyStr) : Option (PyStr × PyStr) := do
  let t ← litCI ("since ".toList) s
  let t ← d12Then ':' t
  let t ← twoDigits t
  let t ← litC ' ' t
  let t ← ampm t
  let t ← litCI (" (jul ".toList) t
  let t ← d12Then ',' t
  let t ← litC ' ' t
  let t ← fourDigits t
  let t ← litC ')' t
  pure (([] : PyStr), t)

/-- Case-insensitive literal substitution matcher (lines 54 to 57 and 64). -/
def litM (pat repl : PyStr) (s : PyStr) : Option (PyStr × PyStr) :=
  match litCI pat s with
  | some r => some (repl, r)
  | none => none

def pat54 : PyStr := "here’s what you missed:".toList

def pat55 : PyStr := "view group".toList

def pat56 : PyStr := "are we sending you too many emails?".toList

def pat57 : PyStr := "we’re bundling up all your email notifications: hourly".toList

/-- Alternation of line 58: `\d+\s*mins|\d+\s*hours|Daily|Weekly`. -/
def altAt (t : PyStr) : Option PyStr :=
  let ds := t.takeWhile Char.isDigit
  if ds.isEmpty then
    match litCI ("daily".toList) t with
    | some r => some r
    | none => litCI ("weekly".toList) t
  else
    let r2 := (t.drop ds.length).dropWhile isPySpace
    match litCI ("mins".toList) r2 with
    | some r3 => some r3
    | none => litCI ("hours".toList) r2

def findAlt : PyStr → Option PyStr
  | [] => none
  | s@(_ :: r) =>
    match altAt s with
    | some x => some x
    | none => findAlt r

/-- nlp_utils.py line 58: `Change to:.*?(\d+\s*mins|\d+\s*hours|Daily|Weekly)`
(IGNORECASE, DOTALL); the lazy `.*?` stops at the earliest alternative. -/
def m58 (s : PyStr) : Option (PyStr × PyStr) :=
  match litCI ("change to:".toList) s with
  | some t => (findAlt t).map (fun r => (([] : PyStr), r))
  | none => none

/-- `[^\s]+` (greedy, at least one char); returns (last char, rest). -/
def bodyRun (t : PyStr) : Option (Char × PyStr) :=
  let run := t.takeWhile (fun c => !(isPySpace c))
  match run.getLast? with
  | some lc => some (lc, t.drop run.length)
  | none => none

/-- URL branch `https?://[^\s]+` of line 63. -/
def urlA (t : PyStr) : Option (Char × PyStr) :=
  match litCI ("https://".toList) t with
  | some r => bodyRun r
  | none =>
    match litCI ("http://".toList) t with
    | some r => bodyRun r
    | none => none

/-- URL branch `www\.[^\s]+` of line 63. -/
def urlB (t : PyStr) : Option (Char × PyStr) :=
  match litCI ("www.".toList) t with
  | some r => bodyRun r
  | none => none

def tryTlds : List PyStr → PyStr → Option PyStr
  | [], _ => none
  | e :: es, r2 =>
    match litCI e r2 with
    | some r3 =>
      match r3 with
      | '/' :: r4 => some r4
      | _ => tryTlds es r2
    | none => tryTlds es r2

/-- `(com|org|net|io|co|ai)\/` of line 63; returns the rest after the slash. -/
def tldSlash (r2 : PyStr) : Option PyStr :=
  tryTlds ["com".toList, "org".toList, "net".toList, "io".toList, "co".toList,
    "ai".toList] r2

/-- Word-boundary test after consuming `k` characters of the non-space run
that follows the slash (the char before position `k` is `'/'` when `k = 0`). -/
def boundaryOK (run after : PyStr) (k : Nat) : Bool :=
  let b := if k == 0 then '/' else run.getD (k - 1) ' '
  let aw :=
    if k < run.length then isWordChar (run.getD k ' ')
    else
      match after.head? with
      | some c => isWordChar c
      | none => false
  isWordChar b != aw

def pickK (run after : PyStr) : Nat → Option Nat
  | 0 => if boundaryOK run after 0 then some 0 else none
  | k + 1 => if boundaryOK run after (k + 1) then some (k + 1) else pickK run after k

/-- `\S*\b` after the slash (greedy with backtracking on the `\b`). -/
def sStarB (t : PyStr) : Option (Char × PyStr) :=
  let run := t.takeWhile (fun c => !(isPySpace c))
  let after := t.drop run.length
  match pickK run after run.length with
  | some k => some ((if k == 0 then '/' else run.getD (k - 1) ' '), run.drop k ++ after)
  | none => none

/-- URL branch `\b\w+\.(com|org|net|io|co|ai)\/\S*\b` of line 63; `bPrev` is
the character just before the candidate start, for the `\b`. -/
def urlC (bPrev : Option Char) (t : PyStr) : Option (Char × PyStr) :=
  let run := t.takeWhile isWordChar
  if run.isEmpty then none
  else if (match bPrev with | some c => isWordChar c | none => false) then none
  else
    match t.drop run.length with
    | '.' :: r2 =>
      match tldSlash r2 with
      | some r4 => sStarB r4
      | none => none
    | _ => none

/-- Trailing `\s*\)?\s*` of line 63, threading the last consumed char. -/
def trailPost (lastc : Char) (t : PyStr) : Char × PyStr :=
  let sp1 := t.takeWhile isPySpace
  let l1 := sp1.getLastD lastc
  match t.drop sp1.length with
  | ')' :: t2 =>
    let sp2 := t2.takeWhile isPySpace
    (sp2.getLastD ')', t2.drop sp2.length)
  | t1 => (l1, t1)

/-- nlp_utils.py line 63: the URL-removal pattern
`\s*\(?\s*(https?://[^\s]+|www\.[^\s]+|\b\w+\.(com|org|net|io|co|ai)\/\S*\b)\s*\)?\s*`
(IGNORECASE), replacement a single space. -/
def m63 (prev : Option Char) (s : PyStr) : Option (PyStr × Char × PyStr) :=
  let sp1 := s.takeWhile isPySpace
  let s1 := s.drop sp1.length
  let hasPar := s1.head? == some '('
  let s2 := if hasPar then s1.tail else s1
  let sp2 := s2.takeWhile isPySpace
  let s3 := s2.drop sp2.length
  let bPrev : Option Char :=
    match sp2.getLast? with
    | some c => some c
    | none =>
      if hasPar then some '('
      else
        match sp1.getLast? with
        | some c => some c
        | none => prev
  match
    (match urlA s3 with
     | some x => some x
     | none =>
       match urlB s3 with
       | some x => some x
       | none => urlC bPrev s3) with
  | some (lc, rest) =>
    let (l2, rest2) := trailPost lc rest
    some ([' '], l2, rest2)
  | none => none

/-- nlp_utils.py line 68: `\b(?:CA|AA)\b\s*` (case-sensitive), replacement
empty. -/
def m68 (prev : Option Char) (s : PyStr) : Option (PyStr × Char × PyStr) :=
  if (match prev with | some c => isWordChar c | none => false) then none
  else
    match s with
    | c1 :: c2 :: r =>
      if ((c1 == 'C' || c1 == 'A') && c2 == 'A') &&
          (match r.head? with | some c => !isWordChar c | none => true) then
        let sp := r.takeWhile isPySpace
        some (([] : PyStr), sp.getLastD c2, r.drop sp.length)
      else none
    | _ => none

/-- nlp_utils.py line 67: literal attribute fragment, then `[^!]+`, then
`!important;`, then `[^!]+`, then `!` (IGNORECASE), replacement empty. -/
def m67 (s : PyStr) : Option (PyStr × PyStr) :=
  match litCI ("alt=\"\" width=\"1\" height=\"1\" border=\"0\" style=\"".toList) s with
  | some t =>
    let seg1 := t.takeWhile (fun c => c != '!')
    if seg1.isEmpty then none
    else
      match litCI ("!important;".toList) (t.drop seg1.length) with
      | some t2 =>
        let seg2 := t2.takeWhile (fun c => c != '!')
        if seg2.isEmpty then none
        else
          match t2.drop seg2.length with
          | '!' :: r => some (([] : PyStr), r)
          | _ => none
      | none => none
  | none => none

/-- One unit `\s*\( ?\)\s*` of line 70's pattern. -/
def parseU (s : PyStr) : Option PyStr :=
  match s.dropWhile isPySpace with
  | '(' :: ' ' :: ')' :: r2 => some (r2.dropWhile isPySpace)
  | '(' :: ')' :: r2 => some (r2.dropWhile isPySpace)
  | _ => none

def gobbleU : Nat → PyStr → PyStr
  | 0, s => s
  | f + 1, s =>
    match parseU s with
    | some r => gobbleU f r
    | none => s

/-- nlp_utils.py line 70: `\s*\( ?\)\s*(\s*\( ?\)\s*)*` (one or more empty
parenthetical groups, greedy), replacement a single space. -/
def m70 (s : PyStr) : Option (PyStr × PyStr) :=
  match parseU s with
  | some r => some ([' '], gobbleU r.length r)
  | none => none

/-- nlp_utils.py line 73, first half: `re.sub(r'\s+', ' ', text)` — collapse
every maximal whitespace run to one space. -/
def collapseWS : PyStr → PyStr
  | [] => []
  | [c] => if isPySpace c then [' '] else [c]
  | c :: d :: rest =>
    if isPySpace c then
      if isPySpace d then collapseWS (d :: rest)
      else ' ' :: collapseWS (d :: rest)
    else c :: collapseWS (d :: rest)

/-- nlp_utils.py line 74: `\n\s*\n` → `\n\n`; the greedy `\s*` backtracks to
the last newline of the whitespace run following the first newline. -/
def m74 (s : PyStr) : Option (PyStr × PyStr) :=
  match s with
  | '\n' :: rest =>
    let run := rest.takeWhile isPySpace
    match run.reverse.findIdx? (fun c => c == '\n') with
    | some i => some (['\n', '\n'], rest.drop (run.length - i))
    | none => none
  | _ => none

/-- nlp_utils.py lines 43 to 70: the ordered tag / boilerplate / URL /
artifact substitution passes of `clean_email_text`, before whitespace
normalization. -/
def patternPasses (text : PyStr) : PyStr :=
  let t := runSub1 tagM text
  let t := truncAtFirst check47 t
  let t := sub48 t
  let t := truncAtFirst check49 t
  let t := truncAtFirst check50 t
  let t := truncAtFirst check51 t
  let t := runSub1 m52 t
  let t := runSub1 m53 t
  let t := runSub1 (litM pat54 []) t
  let t := runSub1 (litM pat55 []) t
  let t := runSub1 (litM pat56 []) t
  let t := runSub1 (litM pat57 []) t
  let t := runSub1 m58 t
  let t := runSubP m63 t
  let t := runSub1 (litM ("[link]".toList) [' ']) t
  let t := runSub1 m67 t
  let t := runSubP m68 t
  let t := t.filter (fun c => c != '*')
  let t := runSub1 m70 t
  t

/-- nlp_utils.py lines 36 to 76: `clean_email_text` — the substitution passes
followed by whitespace normalization (collapse `\s+` to one space, strip) and
the blank-line reduction of line 74. -/
def clean_email_text (text : PyStr) : PyStr :=
  runSub1 m74 (pyStrip (collapseWS (patternPasses text)))

/-- nlp_utils.py line 81 sentinel. -/
def noContentMsg : PyStr := "No content to summarize.".toList

/-- nlp_utils.py line 89 sentinel. -/
def summaryFailMsg : PyStr := "Could not generate summary.".toList

/-- nlp_utils.py lines 78 to 89: `get_summary`.  The external summarization
capability (the transformers pipeline called with `do_sample=False`) is a
parameter returning either its summary text or an exception. -/
def get_summary (summ : PyStr → Except Unit PyStr) (text : PyStr) : PyStr :=
  if pyStrip text = [] then noContentMsg
  else
    match summ text with
    | Except.ok s => s
    | Except.error _ => summaryFailMsg

/-- A spaCy entity: its literal text, label, and character span. -/
structure Entity where
  text : PyStr
  label : String
  start_char : Nat
  end_char : Nat
deriving DecidableEq

/-- A spaCy sentence: its text and the entities it contains. -/
structure Sentence where
  text : PyStr
  ents : List Entity
deriving DecidableEq

/-- The part of a spaCy `Doc` used by the pipeline. -/
structure SpacyDoc where
  ents : List Entity
  sents : List Sentence
deriving DecidableEq

/-- A timestamp in whole seconds (Python `datetime`, modelled at second
resolution); `timedelta.days` of a difference `w` seconds is `w.fdiv 86400`
(floor division, as in Python). -/
def daysBetween (p now : Int) : Int := (p - now).fdiv 86400

/-- `parsed_date.strftime('%Y-%m-%d %H:%M')` truncates a timestamp to minute
resolution; the formatted string is modelled by the minute-truncated
timestamp it displays (the two determine each other). -/
def fmtYMDHM (p : Int) : Int := p - p.emod 60

/-- nlp_utils.py line 109. -/
def deadlineKeywords : List PyStr :=
  ["deadline".toList, "due".toList, "by".toList, "before".toList,
   "expires".toList, "register".toList, "submit".toList, "apply".toList,
   "on or before".toList, "last date".toList]

/-- nlp_utils.py line 108: the lower-cased context window
`text[max(0, ent.start_char - 50):min(len(text), ent.end_char + 50)]`. -/
def entContext (text : PyStr) (e : Entity) : PyStr :=
  toLowerPy ((text.take (e.end_char + 50)).drop (e.start_char - 50))

/-- nlp_utils.py lines 100 to 122: the per-entity body of the
`extract_deadlines` loop.  `dp` is the dateparser capability
(`dateparser.parse` with PREFER_DATES_FROM='future' and RELATIVE_BASE = now);
`now` is the invocation reference time (`datetime.now()`).  Returns the
formatted deadline appended for this entity, if any. -/
def keepEntity (dp : PyStr → Int → Option Int) (text : PyStr) (now : Int)
    (e : Entity) : Option Int :=
  if e.label == "DATE" || e.label == "TIME" || e.label == "EVENT" then
    match dp e.text now with
    | some p =>
      let context := entContext text e
      let isFutureDate := decide (0 ≤ daysBetween p now)
      let isWithin30 := decide (daysBetween p now ≤ 30)
      if deadlineKeywords.any (fun k => containsL k context) && isFutureDate then
        some (fmtYMDHM p)
      else if e.label == "DATE" && isFutureDate && isWithin30 then
        some (fmtYMDHM p)
      else none
    | none => none
  else none

/-- nlp_utils.py lines 91 to 123: `extract_deadlines`.  `nlp` is the spaCy
capability; the final `list(set(deadlines))` is modelled by `dedup` (the
source returns the deduplicated collection in unspecified set order). -/
def extract_deadlines (nlp : PyStr → SpacyDoc) (dp : PyStr → Int → Option Int)
    (text : PyStr) (now : Int) : List Int :=
  (((nlp text).ents).filterMap (keepEntity dp text now)).dedup

/-- nlp_utils.py lines 134 to 138. -/
def actionIndicators : List PyStr :=
  ["please".toList, "kindly".toList, "ensure".toList, "confirm".toList,
   "submit".toList, "reply by".toList, "action required".toList,
   "must".toList, "should".toList, "need to".toList, "important:".toList,
   "note:".toList, "deadline".toList, "review".toList, "attend".toList,
   "find attached".toList, "see attached".toList]

/-- nlp_utils.py line 156. -/
def significantLabels : List String :=
  ["PERSON", "ORG", "GPE", "PRODUCT", "EVENT", "MONEY"]

/-- nlp_utils.py lines 149 to 161: the three key-point heuristics for one
sentence (the source computes them in sequence guarded by `if not is_key`,
which is the disjunction). -/
def isKeySentence (s : Sentence) : Bool :=
  let st := pyStrip s.text
  (actionIndicators.any (fun ind => containsL ind (toLowerPy st))) ||
  (s.ents.any (fun e => significantLabels.contains e.label)) ||
  (st.getLast? == some '?')

/-- nlp_utils.py lines 144 to 165: the sentence loop of
`extract_key_points_and_actions`, threading the `processed_sentences` set. -/
def ekpaLoop : List Sentence → List PyStr → List PyStr
  | [], _ => []
  | s :: rest, processed =>
    let st := pyStrip s.text
    if st.isEmpty || processed.contains st then ekpaLoop rest processed
    else if isKeySentence s then st :: ekpaLoop rest (st :: processed)
    else ekpaLoop rest processed

/-- nlp_utils.py lines 125 to 172: `extract_key_points_and_actions`. -/
def extract_key_points_and_actions (nlp : PyStr → SpacyDoc) (text : PyStr) :
    List PyStr :=
  ekpaLoop (nlp text).sents []

/-- The filename extensions of nlp_utils.py line 184. -/
def extsList : List PyStr :=
  ["pdf".toList, "docx".toList, "xlsx".toList, "pptx".toList, "jpg".toList,
   "png".toList, "zip".toList, "rar".toList, "txt".toList, "csv".toList,
   "mp4".toList, "mov".toList, "mp3".toList]

/-- Try the extension alternation (in source order) case-insensitively,
followed by the `\b`; returns the original extension characters and the
rest. -/
def extAtGo : List PyStr → PyStr → Option (PyStr × PyStr)
  | [], _ => none
  | e :: es, r2 =>
    if isPrefixCI e r2 &&
        (match (r2.drop e.length).head? with
         | some c => !isWordChar c
         | none => true) then
      some (r2.take e.length, r2.drop e.length)
    else extAtGo es r2

/-- `\w+\.(?:pdf|docx|...)\b` of line 184 tested at the current position:
maximal word run, a dot, an extension, a word boundary. -/
def fnMatchAt (s : PyStr) : Option (PyStr × PyStr) :=
  let run := s.takeWhile isWordChar
  if run.isEmpty then none
  else
    match s.drop run.length with
    | '.' :: r2 =>
      match extAtGo extsList r2 with
      | some (ext, rest) => some (run ++ '.' :: ext, rest)
      | none => none
    | _ => none

/-- The lazy pre-context group `(\b.{0,80}?)` of line 184 followed by the
filename group: from the current position, consume as few non-newline
characters as possible (at most 80) until a filename matches; returns the
consumed window, the filename, and the rest after the filename. -/
def findFn : Nat → PyStr → PyStr → Option (PyStr × PyStr × PyStr)
  | 0, acc, s => (fnMatchAt s).map (fun pr => (acc.reverse, pr.1, pr.2))
  | k + 1, acc, s =>
    match fnMatchAt s with
    | some (fn, rest) => some (acc.reverse, fn, rest)
    | none =>
      match s with
      | [] => none
      | c :: r => if c == '\n' then none else findFn k (c :: acc) r

/-- `re.finditer` over the file pattern of line 184: scan left to right; a
match starts at a word boundary (the leading `\b` of group 1); the trailing
group `(.{0,80}?\b)` is lazy and always succeeds with the empty window (the
filename's own `\b` guarantees the boundary), so each match ends right after
the filename.  Yields (pre-window, filename) per match. -/
def faScan : Nat → Option Char → PyStr → List (PyStr × PyStr)
  | 0, _, _ => []
  | _ + 1, _, [] => []
  | f + 1, prev, c :: rest =>
    if isWordChar c != (match prev with | some p => isWordChar p | none => false) then
      match findFn 80 [] (c :: rest) with
      | some (pre, fn, after) => (pre, fn) :: faScan f fn.getLast? after
      | none => faScan f (some c) rest
    else faScan f (some c) rest

/-- All matches of the file pattern in `text`. -/
def faMatches (text : PyStr) : List (PyStr × PyStr) := faScan text.length none text

/-- Python `str.replace` (all non-overlapping occurrences, left to right). -/
def pyReplaceF (pat repl : PyStr) : Nat → PyStr → PyStr
  | 0, s => s
  | _ + 1, [] => []
  | f + 1, c :: rest =>
    if isPrefixP pat (c :: rest) && !pat.isEmpty then
      repl ++ pyReplaceF pat repl f ((c :: rest).drop pat.length)
    else c :: pyReplaceF pat repl f rest

def pyReplace (pat repl s : PyStr) : PyStr := pyReplaceF pat repl s.length s

/-- nlp_utils.py lines 195 to 199: the first sentence of the whole document
containing the filename as a case-insensitive substring. -/
def firstSentWith (sents : List Sentence) (fn : PyStr) : Option Sentence :=
  sents.find? (fun s => containsL (toLowerPy fn) (toLowerPy s.text))

/-- nlp_utils.py lines 189 to 211: processing of one regex match into a
`(filename, context)` pair.  Note the source reads `match.group(3)` — the
filename itself — as `post_context` (the captured trailing window is
`group(4)`, which it never reads). -/
def attSnippet (sents : List Sentence) (pre fn : PyStr) : PyStr × PyStr :=
  let preC := pyStrip pre
  let postC := pyStrip fn
  let fullSent :=
    match firstSentWith sents fn with
    | some s => pyStrip s.text
    | none => []
  let snippet0 :=
    if fullSent.isEmpty then
      pyStrip (pyReplace fn ("**".toList ++ fn ++ "**".toList) (preC ++ fn ++ postC))
    else fullSent
  let snippet1 := pyStrip (collapseWS snippet0)
  let snippet2 := if snippet1.length < 10 && fullSent.isEmpty then [] else snippet1
  (fn, snippet2)

/-- nlp_utils.py lines 174 to 213: `detect_attachments_with_context`; the
final `list(set(mentioned_files))` is modelled by `dedup`. -/
def detect_attachments_with_context (nlp : PyStr → SpacyDoc) (text : PyStr) :
    List (PyStr × PyStr) :=
  ((faMatches text).map (fun pr => attSnippet (nlp text).sents pr.1 pr.2)).dedup

/-- The digest record assembled by app.py lines 158 to 161 (the
`computeDigest` entry point of the specification). -/
structure Digest where
  summary : PyStr
  keyPoints : List PyStr
  deadlines : List Int
  attachments : List (PyStr × PyStr)
deriving DecidableEq

/-- app.py lines 158 to 161: the digest computation on cleaned text, given
the summarization capability, the spaCy capability, the dateparser capability
and the invocation reference time. -/
def computeDigest (summ : PyStr → Except Unit PyStr) (nlp : PyStr → SpacyDoc)
    (dp : PyStr → Int → Option Int) (text : PyStr) (now : Int) : Digest :=
  { summary := get_summary summ text
    keyPoints := extract_key_points_and_actions nlp text
    deadlines := extract_deadlines nlp dp text now
    attachments := detect_attachments_with_context nlp text }

/-! ### Helper lemmas: whitespace normalization -/

/-- "No two adjacent whitespace characters". -/
def NoAdjSpaces (l : PyStr) : Prop :=
  l.Chain' (fun a b => isPySpace a = false ∨ isPySpace b = false)

theorem dwHeadNot {α} (p : α → Bool) :
    ∀ (l : List α) (c : α), (l.dropWhile p).head? = some c → p c = false := by
  intro l
  induction l with
  | nil => intro c h; simp [List.dropWhile] at h
  | cons a t ih =>
    intro c h
    rw [List.dropWhile_cons] at h
    by_cases hp : p a = true
    · rw [if_pos hp] at h; exact ih c h
    · rw [if_neg hp] at h
      simp only [List.head?_cons, Option.some.injEq] at h
      subst h
      exact Bool.eq_false_iff.mpr hp

theorem dwGetLast {α} (p : α → Bool) (x : List α) (hne : x.dropWhile p ≠ []) :
    (x.dropWhile p).getLast? = x.getLast? := by
  conv_rhs => rw [← List.takeWhile_append_dropWhile p x]
  exact (List.getLast?_append_of_ne_nil _ hne).symm

theorem dropWhile_eq_self_of_head {α} (p : α → Bool) (l : List α)
    (h : ∀ c, l.head? = some c → p c = false) : l.dropWhile p = l := by
  cases l with
  | nil => rfl
  | cons a t =>
    rw [List.dropWhile_cons, if_neg]
    simp [h a rfl]

theorem chainSuffixDW {α} {R : α → α → Prop} (p : α → Bool) {l : List α}
    (h : l.Chain' R) : (l.dropWhile p).Chain' R := by
  rw [← List.takeWhile_append_dropWhile p l] at h
  exact (List.chain'_append.mp h).2.1

theorem noAdjSpaces_reverse {l : PyStr} (h : NoAdjSpaces l) : NoAdjSpaces l.reverse := by
  rw [NoAdjSpaces, List.chain'_reverse]
  exact h.imp (fun a b hab => hab.symm)

theorem pyStrip_noAdj {l : PyStr} (h : NoAdjSpaces l) : NoAdjSpaces (pyStrip l) := by
  unfold pyStrip
  exact noAdjSpaces_reverse (chainSuffixDW _ (noAdjSpaces_reverse (chainSuffixDW _ h)))

theorem pyStrip_subset {l : PyStr} : pyStrip l ⊆ l := by
  unfold pyStrip
  intro c hc
  rw [List.mem_reverse] at hc
  have hc2 := (List.dropWhile_sublist _).subset hc
  rw [List.mem_reverse] at hc2
  exact (List.dropWhile_sublist _).subset hc2

theorem pyStrip_head_not_space {l : PyStr} {c : Char}
    (h : (pyStrip l).head? = some c) : isPySpace c = false := by
  unfold pyStrip at h
  rw [List.head?_reverse] at h
  have hne : (l.dropWhile isPySpace).reverse.dropWhile isPySpace ≠ [] := by
    intro h0; rw [h0] at h; simp at h
  rw [dwGetLast _ _ hne, List.getLast?_reverse] at h
  exact dwHeadNot _ _ _ h

theorem pyStrip_last_not_space {l : PyStr} {c : Char}
    (h : (pyStrip l).getLast? = some c) : isPySpace c = false := by
  unfold pyStrip at h
  rw [List.getLast?_reverse] at h
  exact dwHeadNot _ _ _ h

theorem pyStrip_eq_self {l : PyStr}
    (hh : ∀ c, l.head? = some c → isPySpace c = false)
    (hl : ∀ c, l.getLast? = some c → isPySpace c = false) : pyStrip l = l := by
  unfold pyStrip
  rw [dropWhile_eq_self_of_head _ l hh]
  rw [dropWhile_eq_self_of_head _ l.reverse (fun c hc => hl c (by rwa [List.head?_reverse] at hc))]
  exact List.reverse_reverse l

theorem cws_mem : ∀ (l : PyStr) (c : Char), c ∈ collapseWS l → c ∈ l ∨ c = ' ' := by
  intro l
  induction l with
  | nil => intro c h; simp [collapseWS] at h
  | cons a t ih =>
    intro c h
    cases t with
    | nil =>
      by_cases hs : isPySpace a = true
      · simp [collapseWS, hs] at h; right; exact h
      · simp [collapseWS, hs] at h; left; simp [h]
    | cons d rest =>
      by_cases hs : isPySpace a = true
      · by_cases hd : isPySpace d = true
        · rw [show collapseWS (a :: d :: rest) = collapseWS (d :: rest) by
            simp [collapseWS, hs, hd]] at h
          rcases ih c h with h1 | h1
          · left; exact List.mem_cons_of_mem _ h1
          · right; exact h1
        · rw [show collapseWS (a :: d :: rest) = ' ' :: collapseWS (d :: rest) by
            simp [collapseWS, hs, hd]] at h
          rcases List.mem_cons.mp h with h1 | h1
          · right; exact h1
          · rcases ih c h1 with h2 | h2
            · left; exact List.mem_cons_of_mem _ h2
            · right; exact h2
      · rw [show collapseWS (a :: d :: rest) = a :: collapseWS (d :: rest) by
          simp [collapseWS, hs]] at h
        rcases List.mem_cons.mp h with h1 | h1
        · left; simp [h1]
        · rcases ih c h1 with h2 | h2
          · left; exact List.mem_cons_of_mem _ h2
          · right; exact h2

theorem cws_space_eq : ∀ (l : PyStr) (c : Char),
    c ∈ collapseWS l → isPySpace c = true → c = ' ' := by
  intro l
  induction l with
  | nil => intro c h; simp [collapseWS] at h
  | cons a t ih =>
    intro c h hsp
    cases t with
    | nil =>
      by_cases hs : isPySpace a = true
      · simp [collapseWS, hs] at h; exact h
      · simp [collapseWS, hs] at h; rw [h] at hsp; rw [hsp] at hs; simp at hs
    | cons d rest =>
      by_cases hs : isPySpace a = true
      · by_cases hd : isPySpace d = true
        · rw [show collapseWS (a :: d :: rest) = collapseWS (d :: rest) by
            simp [collapseWS, hs, hd]] at h
          exact ih c h hsp
        · rw [show collapseWS (a :: d :: rest) = ' ' :: collapseWS (d :: rest) by
            simp [collapseWS, hs, hd]] at h
          rcases List.mem_cons.mp h with h1 | h1
          · exact h1
          · exact ih c h1 hsp
      · rw [show collapseWS (a :: d :: rest) = a :: collapseWS (d :: rest) by
          simp [collapseWS, hs]] at h
        rcases List.mem_cons.mp h with h1 | h1
        · rw [h1] at hsp; rw [hsp] at hs; simp at hs
        · exact ih c h1 hsp

theorem cws_head_of_not_space {d : Char} {rest : PyStr} (hd : isPySpace d = false) :
    (collapseWS (d :: rest)).head? = some d := by
  cases rest with
  | nil => simp [collapseWS, hd]
  | cons e r => simp [collapseWS, hd]

theorem cws_noAdj : ∀ l : PyStr, NoAdjSpaces (collapseWS l) := by
  intro l
  induction l with
  | nil => simp [collapseWS, NoAdjSpaces]
  | cons a t ih =>
    cases t with
    | nil =>
      by_cases hs : isPySpace a = true <;>
        simp [collapseWS, hs, NoAdjSpaces]
    | cons d rest =>
      by_cases hs : isPySpace a = true
      · by_cases hd : isPySpace d = true
        · rw [NoAdjSpaces, show collapseWS (a :: d :: rest) = collapseWS (d :: rest) by
            simp [collapseWS, hs, hd]]
          exact ih
        · have hd' : isPySpace d = false := Bool.eq_false_iff.mpr hd
          rw [NoAdjSpaces, show collapseWS (a :: d :: rest) = ' ' :: collapseWS (d :: rest) by
            simp [collapseWS, hs, hd]]
          rw [List.chain'_cons']
          refine ⟨?_, ih⟩
          intro y hy
          rw [cws_head_of_not_space hd'] at hy
          simp only [Option.mem_def, Option.some.injEq] at hy
          subst hy
          right; exact hd'
      · rw [NoAdjSpaces, show collapseWS (a :: d :: rest) = a :: collapseWS (d :: rest) by
          simp [collapseWS, hs]]
        rw [List.chain'_cons']
        refine ⟨?_, ih⟩
        intro y _
        left; exact Bool.eq_false_iff.mpr hs

theorem cws_eq_self : ∀ l : PyStr,
    (∀ c ∈ l, isPySpace c = true → c = ' ') → NoAdjSpaces l → collapseWS l = l := by
  intro l
  induction l with
  | nil => intro _ _; rfl
  | cons a t ih =>
    intro hsp hch
    cases t with
    | nil =>
      by_cases hs : isPySpace a = true
      · have := hsp a (by simp) hs
        simp [collapseWS, hs, this]
      · simp [collapseWS, hs]
    | cons d rest =>
      rw [NoAdjSpaces, List.chain'_cons] at hch
      have htail : collapseWS (d :: rest) = d :: rest :=
        ih (fun c hc => hsp c (List.mem_cons_of_mem _ hc)) hch.2
      by_cases hs : isPySpace a = true
      · have hd : isPySpace d = false := by
          rcases hch.1 with h1 | h1
          · rw [hs] at h1; simp at h1
          · exact h1
        have ha : a = ' ' := hsp a (by simp) hs
        rw [show collapseWS (a :: d :: rest) = ' ' :: collapseWS (d :: rest) by
          simp [collapseWS, hs, hd]]
        rw [htail, ha]
      · rw [show collapseWS (a :: d :: rest) = a :: collapseWS (d :: rest) by
          simp [collapseWS, hs]]
        rw [htail]

/-! ### Helper lemmas: the final passes of `clean_email_text` -/

theorem m74_none {c : Char} {rest : PyStr} (hc : c ≠ '\n') : m74 (c :: rest) = none := by
  unfold m74
  split
  · rename_i heq
    injection heq with h1 _
    exact absurd h1 hc
  · rfl

theorem scan74_id : ∀ (f : Nat) (s : PyStr), (∀ c ∈ s, c ≠ '\n') → scanSub1 m74 f s = s := by
  intro f
  induction f with
  | zero => intro s _; rfl
  | succ f ih =>
    intro s hs
    cases s with
    | nil => rfl
    | cons c rest =>
      have hc : c ≠ '\n' := hs c (by simp)
      rw [show scanSub1 m74 (f + 1) (c :: rest) =
        (match m74 (c :: rest) with
         | some (repl, after) => repl ++ scanSub1 m74 f after
         | none => c :: scanSub1 m74 f rest) from rfl]
      rw [m74_none hc]
      rw [ih rest (fun x hx => hs x (List.mem_cons_of_mem _ hx))]

theorem parseU_subset {s r : PyStr} (h : parseU s = some r) : r ⊆ s := by
  unfold parseU at h
  split at h
  · rename_i r2 heq
    injection h with h
    subst h
    intro x hx
    have h1 : x ∈ r2 := (List.dropWhile_sublist isPySpace).subset hx
    have h2 : x ∈ s.dropWhile isPySpace := by
      rw [heq]
      exact List.mem_cons_of_mem _ (List.mem_cons_of_mem _ (List.mem_cons_of_mem _ h1))
    exact (List.dropWhile_sublist isPySpace).subset h2
  · rename_i r2 heq
    injection h with h
    subst h
    intro x hx
    have h1 : x ∈ r2 := (List.dropWhile_sublist isPySpace).subset hx
    have h2 : x ∈ s.dropWhile isPySpace := by
      rw [heq]
      exact List.mem_cons_of_mem _ (List.mem_cons_of_mem _ h1)
    exact (List.dropWhile_sublist isPySpace).subset h2
  · exact absurd h (by simp)

theorem gobbleU_subset : ∀ (f : Nat) (s : PyStr), gobbleU f s ⊆ s := by
  intro f
  induction f with
  | zero => intro s; exact List.Subset.refl s
  | succ f ih =>
    intro s
    rw [show gobbleU (f + 1) s =
      (match parseU s with
       | some r => gobbleU f r
       | none => s) from rfl]
    cases hp : parseU s with
    | some r => exact fun x hx => parseU_subset hp (ih r hx)
    | none => exact List.Subset.refl s

theorem m70_some {s repl after : PyStr} (h : m70 s = some (repl, after)) :
    repl = [' '] ∧ after ⊆ s := by
  unfold m70 at h
  cases hp : parseU s with
  | some r =>
    rw [hp] at h
    injection h with h
    obtain ⟨h1, h2⟩ := Prod.mk.injEq .. ▸ h
    constructor
    · exact h1.symm ▸ rfl
    · intro x hx
      rw [← h2] at hx
      exact parseU_subset hp (gobbleU_subset _ _ hx)
  | none => rw [hp] at h; exact absurd h (by simp)

theorem scan_m70_mem : ∀ (f : Nat) (s : PyStr) (c : Char),
    c ∈ scanSub1 m70 f s → c ∈ s ∨ c = ' ' := by
  intro f
  induction f with
  | zero => intro s c h; left; exact h
  | succ f ih =>
    intro s c h
    cases s with
    | nil => simp [scanSub1] at h
    | cons a rest =>
      rw [show scanSub1 m70 (f + 1) (a :: rest) =
        (match m70 (a :: rest) with
         | some (repl, after) => repl ++ scanSub1 m70 f after
         | none => a :: scanSub1 m70 f rest) from rfl] at h
      cases hm : m70 (a :: rest) with
      | some pr =>
        obtain ⟨repl, after⟩ := pr
        rw [hm] at h
        obtain ⟨hrepl, hafter⟩ := m70_some hm
        rcases List.mem_append.mp h with h1 | h1
        · rw [hrepl] at h1
          right; simpa using h1
        · rcases ih after c h1 with h2 | h2
          · left; exact hafter h2
          · right; exact h2
      | none =>
        rw [hm] at h
        rcases List.mem_cons.mp h with h1 | h1
        · left; simp [h1]
        · rcases ih rest c h1 with h2 | h2
          · left; exact List.mem_cons_of_mem _ h2
          · right; exact h2

/-- The last pass (line 74) is the identity on the whitespace-normalized
string, so `clean_email_text` equals strip-of-collapse of the pattern
passes. -/
theorem clean_eq_strip (s : PyStr) :
    clean_email_text s = pyStrip (collapseWS (patternPasses s)) := by
  unfold clean_email_text runSub1
  apply scan74_id
  intro c hc hceq
  have h1 : c ∈ collapseWS (patternPasses s) := pyStrip_subset hc
  have h2 : c = ' ' := cws_space_eq _ c h1 (by rw [hceq]; rfl)
  rw [hceq] at h2
  exact absurd h2 (by decide)

/-! ### Helper lemmas: deadlines -/

theorem le_of_daysBetween_nonneg {p now : Int} (h : 0 ≤ daysBetween p now) : now ≤ p := by
  unfold daysBetween at h
  rcases hw : p - now with n | n
  · have h0 : (0 : Int) ≤ p - now := by rw [hw]; exact Int.ofNat_nonneg n
    omega
  · rw [hw] at h
    have hfd : Int.fdiv (Int.negSucc n) 86400 = Int.negSucc (n / 86400) := rfl
    rw [hfd] at h
    exact absurd h (Int.not_le.mpr (Int.negSucc_lt_zero _))

theorem isPrefixP_iff (p : PyStr) : ∀ (s : PyStr), isPrefixP p s = true ↔ p <+: s := by
  induction p with
  | nil => intro s; simp [isPrefixP, List.nil_prefix]
  | cons a ps ih =>
    intro s
    cases s with
    | nil => simp [isPrefixP, List.prefix_nil]
    | cons b t =>
      simp [isPrefixP, List.cons_prefix_cons, ih, Bool.and_eq_true, beq_iff_eq]

theorem containsL_iff (pat : PyStr) : ∀ (s : PyStr), containsL pat s = true ↔ pat <:+: s := by
  intro s
  induction s with
  | nil => simp [containsL, List.infix_nil, List.isEmpty_iff]
  | cons a t ih =>
    simp [containsL, Bool.or_eq_true, isPrefixP_iff, ih, List.infix_cons_iff]

theorem keepEntity_eq_some_iff {dp : PyStr → Int → Option Int} {text : PyStr} {now : Int}
    {e : Entity} {m : Int} :
    keepEntity dp text now e = some m ↔
      ((e.label = "DATE" ∨ e.label = "TIME" ∨ e.label = "EVENT") ∧
       ∃ p, dp e.text now = some p ∧ m = fmtYMDHM p ∧
         (((∃ k ∈ deadlineKeywords, k <:+: entContext text e) ∧ 0 ≤ daysBetween p now) ∨
          (e.label = "DATE" ∧ 0 ≤ daysBetween p now ∧ daysBetween p now ≤ 30))) := by
  unfold keepEntity
  by_cases hl : (e.label == "DATE" || e.label == "TIME" || e.label == "EVENT") = true
  · rw [if_pos hl]
    have hl' : e.label = "DATE" ∨ e.label = "TIME" ∨ e.label = "EVENT" := by
      simpa [Bool.or_eq_true, beq_iff_eq, or_assoc] using hl
    cases hdp : dp e.text now with
    | none => simp [hdp]
    | some p =>
      simp only [hdp]
      constructor
      · intro h
        split at h
        · rename_i hcnd
          injection h with h
          simp only [Bool.and_eq_true, List.any_eq_true, decide_eq_true_eq] at hcnd
          obtain ⟨⟨k, hk, hck⟩, hfut⟩ := hcnd
          exact ⟨hl', p, rfl, h.symm,
            Or.inl ⟨⟨k, hk, (containsL_iff k _).mp hck⟩, hfut⟩⟩
        · rename_i hcnd2
          split at h
          · rename_i hcnd3
            injection h with h
            simp only [Bool.and_eq_true, beq_iff_eq, decide_eq_true_eq] at hcnd3
            exact ⟨hl', p, rfl, h.symm, Or.inr ⟨hcnd3.1.1, hcnd3.1.2, hcnd3.2⟩⟩
          · exact absurd h (by simp)
      · rintro ⟨_, p', hp', hm, hcond⟩
        injection hp' with hp'
        subst hp'
        rcases hcond with ⟨⟨k, hk, hik⟩, hfut⟩ | ⟨hdl, hfut, h30⟩
        · rw [if_pos]
          · rw [hm]
          · simp only [Bool.and_eq_true, List.any_eq_true, decide_eq_true_eq]
            exact ⟨⟨k, hk, (containsL_iff k _).mpr hik⟩, hfut⟩
        · by_cases hc1 : ((deadlineKeywords.any fun k => containsL k (entContext text e)) &&
              decide (0 ≤ daysBetween p now)) = true
          · rw [if_pos hc1, hm]
          · rw [if_neg hc1, if_pos]
            · rw [hm]
            · simp only [Bool.and_eq_true, beq_iff_eq, decide_eq_true_eq]
              exact ⟨⟨hdl, hfut⟩, h30⟩
  · rw [if_neg hl]
    constructor
    · intro h; exact absurd h (by simp)
    · rintro ⟨hl', _, _, _, _⟩
      exfalso
      apply hl
      simp only [Bool.or_eq_true, beq_iff_eq]
      rcases hl' with h | h | h
      · exact Or.inl (Or.inl h)
      · exact Or.inl (Or.inr h)
      · exact Or.inr h

theorem mem_extract_deadlines {nlp : PyStr → SpacyDoc} {dp : PyStr → Int → Option Int}
    {text : PyStr} {now m : Int} :
    m ∈ extract_deadlines nlp dp text now ↔
      ∃ e ∈ (nlp text).ents, keepEntity dp text now e = some m := by
  unfold extract_deadlines
  rw [List.mem_dedup, List.mem_filterMap]

/-! ### Helper lemmas: key points -/

theorem ekpaLoop_cons (s : Sentence) (rest : List Sentence) (pr : List PyStr) :
    ekpaLoop (s :: rest) pr =
      if (pyStrip s.text).isEmpty || pr.contains (pyStrip s.text) then ekpaLoop rest pr
      else if isKeySentence s then pyStrip s.text :: ekpaLoop rest (pyStrip s.text :: pr)
      else ekpaLoop rest pr := rfl

theorem ekpaLoop_mem : ∀ (l : List Sentence) (pr : List PyStr) (x : PyStr),
    x ∈ ekpaLoop l pr → x ∉ pr ∧ ∃ s ∈ l, x = pyStrip s.text ∧ isKeySentence s = true := by
  intro l
  induction l with
  | nil => intro pr x hx; simp [ekpaLoop] at hx
  | cons s rest ih =>
    intro pr x hx
    rw [ekpaLoop_cons] at hx
    by_cases h1 : ((pyStrip s.text).isEmpty || pr.contains (pyStrip s.text)) = true
    · rw [if_pos h1] at hx
      obtain ⟨hnp, s', hs', hk⟩ := ih pr x hx
      exact ⟨hnp, s', List.mem_cons_of_mem _ hs', hk⟩
    · rw [if_neg h1] at hx
      by_cases h2 : isKeySentence s = true
      · rw [if_pos h2] at hx
        rcases List.mem_cons.mp hx with h3 | h3
        · subst h3
          refine ⟨?_, s, by simp, rfl, h2⟩
          intro hmem
          apply h1
          simp
          exact Or.inr hmem
        · obtain ⟨hnp, s', hs', hk⟩ := ih _ x h3
          refine ⟨?_, s', List.mem_cons_of_mem _ hs', hk⟩
          intro hmem
          exact hnp (List.mem_cons_of_mem _ hmem)
      · rw [if_neg h2] at hx
        obtain ⟨hnp, s', hs', hk⟩ := ih pr x hx
        exact ⟨hnp, s', List.mem_cons_of_mem _ hs', hk⟩

theorem ekpaLoop_nodup : ∀ (l : List Sentence) (pr : List PyStr), (ekpaLoop l pr).Nodup := by
  intro l
  induction l with
  | nil => intro pr; simp [ekpaLoop]
  | cons s rest ih =>
    intro pr
    rw [ekpaLoop_cons]
    by_cases h1 : ((pyStrip s.text).isEmpty || pr.contains (pyStrip s.text)) = true
    · rw [if_pos h1]; exact ih pr
    · rw [if_neg h1]
      by_cases h2 : isKeySentence s = true
      · rw [if_pos h2]
        rw [List.nodup_cons]
        refine ⟨?_, ih _⟩
        intro hmem
        exact (ekpaLoop_mem rest _ _ hmem).1 (by simp)
      · rw [if_neg h2]; exact ih pr

theorem ekpaLoop_sublist : ∀ (l : List Sentence) (pr : List PyStr),
    (ekpaLoop l pr).Sublist (l.map (fun s => pyStrip s.text)) := by
  intro l
  induction l with
  | nil => intro pr; simp [ekpaLoop]
  | cons s rest ih =>
    intro pr
    rw [ekpaLoop_cons, List.map_cons]
    by_cases h1 : ((pyStrip s.text).isEmpty || pr.contains (pyStrip s.text)) = true
    · rw [if_pos h1]; exact (ih pr).cons _
    · rw [if_neg h1]
      by_cases h2 : isKeySentence s = true
      · rw [if_pos h2]; exact (ih _).cons₂ _
      · rw [if_neg h2]; exact (ih pr).cons _

/-! ### Helper lemmas: attachments -/

theorem mem_detect {nlp : PyStr → SpacyDoc} {text : PyStr} {pr : PyStr × PyStr} :
    pr ∈ detect_attachments_with_context nlp text ↔
      ∃ q ∈ faMatches text, attSnippet (nlp text).sents q.1 q.2 = pr := by
  unfold detect_attachments_with_context
  rw [List.mem_dedup, List.mem_map]

theorem attSnippet_fst (sents : List Sentence) (pre fn : PyStr) :
    (attSnippet sents pre fn).1 = fn := rfl

theorem attSnippet_of_found {sents : List Sentence} {fn : PyStr} {s₀ : Sentence}
    (hf : firstSentWith sents fn = some s₀) (hne : pyStrip s₀.text ≠ []) (pre : PyStr) :
    attSnippet sents pre fn = (fn, pyStrip (collapseWS (pyStrip s₀.text))) := by
  unfold attSnippet
  rw [hf]
  have hemp : (pyStrip s₀.text).isEmpty = false := by
    rw [List.isEmpty_eq_false]; exact hne
  simp [hemp]

theorem countP_le_one_of_unique {α} (p : α → Bool) :
    ∀ (l : List α), l.Nodup → (∀ a ∈ l, ∀ b ∈ l, p a = true → p b = true → a = b) →
      l.countP p ≤ 1 := by
  intro l
  induction l with
  | nil => intro _ _; simp
  | cons a t ih =>
    intro hnd hu
    rw [List.countP_cons]
    rw [List.nodup_cons] at hnd
    by_cases hp : p a = true
    · rw [if_pos hp]
      have ht : t.countP p = 0 := by
        rw [List.countP_eq_zero]
        intro b hb hpb
        have hab : a = b := hu a (by simp) b (List.mem_cons_of_mem _ hb) hp hpb
        exact hnd.1 (hab ▸ hb)
      omega
    · rw [if_neg hp]
      simp only [Nat.add_zero]
      exact ih hnd.2 (fun x hx y hy => hu x (List.mem_cons_of_mem _ hx) y (List.mem_cons_of_mem _ hy))

theorem nodup_detect (nlp : PyStr → SpacyDoc) (text : PyStr) :
    (detect_attachments_with_context nlp text).Nodup := by
  unfold detect_attachments_with_context
  exact List.nodup_dedup _


/-- Whitespace normalization (collapse then strip) is idempotent. -/
theorem norm_idem (z : PyStr) :
    pyStrip (collapseWS (pyStrip (collapseWS z))) = pyStrip (collapseWS z) := by
  have hsp : ∀ c ∈ pyStrip (collapseWS z), isPySpace c = true → c = ' ' :=
    fun c hc hs => cws_space_eq z c (pyStrip_subset hc) hs
  have hadj : NoAdjSpaces (pyStrip (collapseWS z)) := pyStrip_noAdj (cws_noAdj z)
  rw [cws_eq_self _ hsp hadj]
  exact pyStrip_eq_self (fun c hc => pyStrip_head_not_space hc)
    (fun c hc => pyStrip_last_not_space hc)

theorem no_star_after_filter_m70 (t : PyStr) :
    '*' ∉ runSub1 m70 (t.filter (fun c => c != '*')) := by
  intro h
  unfold runSub1 at h
  rcases scan_m70_mem _ _ _ h with h1 | h1
  · have h2 := (List.mem_filter.mp h1).2
    simp at h2
  · exact absurd h1 (by decide)

/-- The pattern passes end with asterisk removal followed by the empty-parens
pass, whose replacement is a space: no asterisk survives. -/
theorem patternPasses_no_star (s : PyStr) : '*' ∉ patternPasses s :=
  no_star_after_filter_m70 _

/-! ### Claim theorems -/

/-- Fixtures for the digest determinism claims: a deterministic summarizer, a
spaCy capability returning one DATE entity, and a dateparser returning a fixed
timestamp. -/
def cxSumm : PyStr → Except Unit PyStr := fun _ => Except.ok ("s".toList)

def cxNlp : PyStr → SpacyDoc := fun _ =>
  { ents := [{ text := "tomorrow".toList, label := "DATE", start_char := 3, end_char := 11 }],
    sents := [] }

def cxDp : PyStr → Int → Option Int := fun _ _ => some 432000

/-- Claim C1, counterexample: the digest computed on the identical cleaned
text with identical (deterministic) capabilities differs between an
invocation at time 0 and one at time 1728000 (twenty days later), because
`extract_deadlines` filters against `datetime.now()`: the claim's "regardless
of when each run is invoked" is false on the code. -/
theorem computeDigest_time_dependent_cex :
    computeDigest cxSumm cxNlp cxDp ("by tomorrow".toList) 0 ≠
      computeDigest cxSumm cxNlp cxDp ("by tomorrow".toList) 1728000 := by decide

/-- Claim C1 (amended): the digest computation is deterministic given the
same cleaned text and the same invocation reference time — it is a pure
function of (CleanedText, reference time) for fixed capabilities. -/
theorem computeDigest_deterministic_same_time
    (summ : PyStr → Except Unit PyStr) (nlp : PyStr → SpacyDoc)
    (dp : PyStr → Int → Option Int) (t₁ t₂ : PyStr) (n₁ n₂ : Int)
    (ht : t₁ = t₂) (hn : n₁ = n₂) :
    computeDigest summ nlp dp t₁ n₁ = computeDigest summ nlp dp t₂ n₂ := by
  rw [ht, hn]

theorem computeDigest_deterministic_same_time_witness :
    computeDigest cxSumm cxNlp cxDp ("by tomorrow".toList) 0 =
      computeDigest cxSumm cxNlp cxDp ("by tomorrow".toList) 0 :=
  computeDigest_deterministic_same_time cxSumm cxNlp cxDp
    ("by tomorrow".toList) ("by tomorrow".toList) 0 0 rfl rfl

/-- Claim C2: every deadline returned by `extract_deadlines` is the formatted
value of a parsed timestamp that is not strictly before the invocation
reference time (the `delta.days >= 0` policy, under which a date equal to the
reference time counts as future). -/
theorem extract_deadlines_not_past (nlp : PyStr → SpacyDoc) (dp : PyStr → Int → Option Int)
    (text : PyStr) (now m : Int)
    (hm : m ∈ extract_deadlines nlp dp text now) :
    ∃ p : Int, m = fmtYMDHM p ∧ 0 ≤ daysBetween p now ∧ now ≤ p := by
  obtain ⟨e, _, hk⟩ := mem_extract_deadlines.mp hm
  obtain ⟨_, p, _, hmp, hcond⟩ := keepEntity_eq_some_iff.mp hk
  have hfut : 0 ≤ daysBetween p now := by
    rcases hcond with ⟨_, h⟩ | ⟨_, h, _⟩ <;> exact h
  exact ⟨p, hmp, hfut, le_of_daysBetween_nonneg hfut⟩

/-- Witness fixtures: an entity whose text parses to exactly the reference
time, in a context containing the keyword "by" — kept, showing a date equal
to "now" counts as future. -/
def wNlp : PyStr → SpacyDoc := fun _ =>
  { ents := [{ text := "now".toList, label := "DATE", start_char := 3, end_char := 6 }],
    sents := [] }

def wDp : PyStr → Int → Option Int := fun _ n => some n

theorem extract_deadlines_not_past_witness :
    ∃ p : Int, (60 : Int) = fmtYMDHM p ∧ 0 ≤ daysBetween p 60 ∧ (60 : Int) ≤ p :=
  extract_deadlines_not_past wNlp wDp ("by now".toList) 60 60 (by decide)

/-- Claim C3: a formatted timestamp is in the result of `extract_deadlines`
iff some DATE/TIME/EVENT entity's text resolves to a timestamp formatting to
it such that EITHER the 50-character context window around the entity
contains a deadline keyword and the timestamp is not in the past, OR the
entity is a DATE, not in the past, and within 30 days; the result has no
duplicate formatted timestamps. -/
theorem extract_deadlines_mem_iff (nlp : PyStr → SpacyDoc) (dp : PyStr → Int → Option Int)
    (text : PyStr) (now m : Int) :
    (extract_deadlines nlp dp text now).Nodup ∧
    (m ∈ extract_deadlines nlp dp text now ↔
      ∃ e ∈ (nlp text).ents,
        (e.label = "DATE" ∨ e.label = "TIME" ∨ e.label = "EVENT") ∧
        ∃ p, dp e.text now = some p ∧ m = fmtYMDHM p ∧
          (((∃ k ∈ deadlineKeywords, k <:+: entContext text e) ∧ 0 ≤ daysBetween p now) ∨
           (e.label = "DATE" ∧ 0 ≤ daysBetween p now ∧ daysBetween p now ≤ 30))) := by
  refine ⟨List.nodup_dedup _, ?_⟩
  simp only [mem_extract_deadlines, keepEntity_eq_some_iff]

theorem extract_deadlines_mem_iff_witness :
    ∃ e ∈ (wNlp ("by now".toList)).ents,
      (e.label = "DATE" ∨ e.label = "TIME" ∨ e.label = "EVENT") ∧
      ∃ p, wDp e.text 60 = some p ∧ (60 : Int) = fmtYMDHM p ∧
        (((∃ k ∈ deadlineKeywords, k <:+: entContext ("by now".toList) e) ∧
            0 ≤ daysBetween p 60) ∨
         (e.label = "DATE" ∧ 0 ≤ daysBetween p 60 ∧ daysBetween p 60 ≤ 30)) :=
  ((extract_deadlines_mem_iff wNlp wDp ("by now".toList) 60 60).2).mp (by decide)

/-- Claim C4: `get_summary` is total — on whitespace-only input it returns
the "no content" sentinel without consulting the summarizer, and when the
summarizer raises it returns the "summary unavailable" sentinel instead of
propagating the failure. -/
theorem get_summary_total (summ : PyStr → Except Unit PyStr) (text : PyStr) :
    (pyStrip text = [] →
      get_summary summ text = noContentMsg ∧
      ∀ summ' : PyStr → Except Unit PyStr, get_summary summ' text = noContentMsg) ∧
    (pyStrip text ≠ [] → ∀ e : Unit, summ text = Except.error e →
      get_summary summ text = summaryFailMsg) := by
  constructor
  · intro h
    constructor
    · unfold get_summary; rw [if_pos h]
    · intro summ'; unfold get_summary; rw [if_pos h]
  · intro h e he
    unfold get_summary
    rw [if_neg h, he]

theorem get_summary_total_witness :
    get_summary (fun _ => Except.error ()) ("x".toList) = summaryFailMsg :=
  (get_summary_total (fun _ => Except.error ()) ("x".toList)).2 (by decide) () rfl

/-- Claim C5: `extract_key_points_and_actions` returns no duplicates, lists
sentences in first-occurrence order (its output is a sublist of the stripped
sentence sequence), and every element is a qualifying sentence verbatim with
surrounding whitespace trimmed. -/
theorem extract_key_points_nodup_order (nlp : PyStr → SpacyDoc) (text : PyStr) :
    (extract_key_points_and_actions nlp text).Nodup ∧
    (extract_key_points_and_actions nlp text).Sublist
      (((nlp text).sents).map (fun s => pyStrip s.text)) ∧
    ∀ x ∈ extract_key_points_and_actions nlp text,
      ∃ s ∈ (nlp text).sents, x = pyStrip s.text ∧ isKeySentence s = true := by
  refine ⟨ekpaLoop_nodup _ _, ekpaLoop_sublist _ _, ?_⟩
  intro x hx
  exact (ekpaLoop_mem _ _ _ hx).2

def wNlpK : PyStr → SpacyDoc := fun _ =>
  { ents := [], sents := [{ text := "Please reply.".toList, ents := [] }] }

theorem extract_key_points_nodup_order_witness :
    ∃ s ∈ (wNlpK ("t".toList)).sents,
      "Please reply.".toList = pyStrip s.text ∧ isKeySentence s = true :=
  (extract_key_points_nodup_order wNlpK ("t".toList)).2.2 ("Please reply.".toList) (by decide)

/-- Claim C6, counterexample: on the spec's scenario input the cleaner does
NOT return "Hello" — the anchor's inner text survives tag stripping. -/
theorem clean_scenario_cex :
    clean_email_text ("<p>Hello</p> <a href=\"http://x.com\">link</a>".toList) ≠
      "Hello".toList := by decide

/-- Claim C6 (amended): the cleaner strips the tags (and with them the URL,
which sits inside the href attribute) but keeps the anchor's inner text, so
the scenario input yields "Hello link". -/
theorem clean_scenario_amended :
    clean_email_text ("<p>Hello</p> <a href=\"http://x.com\">link</a>".toList) =
      "Hello link".toList := by decide

/-- An input with no HTML/markup at all: it contains no angle bracket. -/
def markupFree (s : PyStr) : Prop := '<' ∉ s ∧ '>' ∉ s

set_option maxHeartbeats 4000000 in
/-- Claim C7, counterexample: cleaning is not idempotent even on markup-free
input — removing the boilerplate literal "View Group" from
"VieView Groupw Group" splices together a fresh occurrence of "View Group",
which a second clean removes entirely. -/
theorem clean_not_idempotent_cex :
    markupFree ("VieView Groupw Group".toList) ∧
    clean_email_text (clean_email_text ("VieView Groupw Group".toList)) ≠
      clean_email_text ("VieView Groupw Group".toList) := by
  refine ⟨?_, by decide⟩
  unfold markupFree
  exact ⟨by decide, by decide⟩

set_option maxHeartbeats 2000000 in
/-- Claim C7 (amended): `clean_email_text` is idempotent on every input whose
cleaned form is left unchanged by the substitution passes (tag, boilerplate,
URL and artifact removal) — in particular the whitespace-normalization tail
is always idempotent; unrestricted idempotence fails (see the
counterexample). -/
theorem clean_idempotent_of_passes_fixed (x : PyStr)
    (h : patternPasses (clean_email_text x) = clean_email_text x) :
    clean_email_text (clean_email_text x) = clean_email_text x := by
  have hxx : clean_email_text (clean_email_text x) =
      pyStrip (collapseWS (patternPasses (clean_email_text x))) := clean_eq_strip _
  have hx : clean_email_text x = pyStrip (collapseWS (patternPasses x)) := clean_eq_strip _
  rw [h] at hxx
  generalize hz : patternPasses x = z at hx
  rw [hxx, hx, norm_idem z]

set_option maxHeartbeats 4000000 in
theorem clean_idempotent_of_passes_fixed_witness :
    clean_email_text (clean_email_text ("hello world".toList)) =
      clean_email_text ("hello world".toList) :=
  clean_idempotent_of_passes_fixed ("hello world".toList) (by decide)

def nlpNoSents : PyStr → SpacyDoc := fun _ => { ents := [], sents := [] }

set_option maxHeartbeats 2000000 in
/-- Claim C8 (code bug witness): at a text where sentence segmentation finds
no sentence, the emitted context is `pre ++ **filename** ++ **filename**` —
the source concatenates `match.group(3)` (the filename itself, because the
filename group is doubly parenthesized) instead of the captured trailing
80-character window `group(4)`, and consequently the "< 10 characters means
empty context" fallback can never fire in the no-sentence case (the bolded
snippet is always at least 18 characters). -/
theorem detect_attachments_group3_eval :
    detect_attachments_with_context nlpNoSents ("x invoice.pdf please review asap".toList) =
      [("invoice.pdf".toList, "x**invoice.pdf****invoice.pdf**".toList)] := by decide

set_option maxHeartbeats 2000000 in
/-- Claim C9: the output of `clean_email_text` is whitespace-normalized: any
whitespace character in it is a plain space, it contains no newline and no
tab, it has no leading or trailing whitespace, no two consecutive spaces, and
no asterisk. -/
theorem clean_email_text_normalized (s : PyStr) :
    (∀ c ∈ clean_email_text s, isPySpace c = true → c = ' ') ∧
    '\n' ∉ clean_email_text s ∧
    '\t' ∉ clean_email_text s ∧
    (∀ c, (clean_email_text s).head? = some c → isPySpace c = false) ∧
    (∀ c, (clean_email_text s).getLast? = some c → isPySpace c = false) ∧
    (clean_email_text s).Chain' (fun a b => ¬(a = ' ' ∧ b = ' ')) ∧
    '*' ∉ clean_email_text s := by
  have hy : clean_email_text s = pyStrip (collapseWS (patternPasses s)) := clean_eq_strip _
  have hstar : '*' ∉ patternPasses s := patternPasses_no_star s
  generalize hz : patternPasses s = z at hy hstar
  rw [hy]
  refine ⟨?_, ?_, ?_, ?_, ?_, ?_, ?_⟩
  · exact fun c hc hs => cws_space_eq z c (pyStrip_subset hc) hs
  · intro h
    have h2 := cws_space_eq z '\n' (pyStrip_subset h) (by decide)
    exact absurd h2 (by decide)
  · intro h
    have h2 := cws_space_eq z '\t' (pyStrip_subset h) (by decide)
    exact absurd h2 (by decide)
  · exact fun c hc => pyStrip_head_not_space hc
  · exact fun c hc => pyStrip_last_not_space hc
  · apply (pyStrip_noAdj (cws_noAdj z)).imp
    intro a b hab hcon
    obtain ⟨ha, hb⟩ := hcon
    rcases hab with hf | hf
    · rw [ha] at hf; exact absurd hf (by decide)
    · rw [hb] at hf; exact absurd hf (by decide)
  · intro h
    rcases cws_mem z '*' (pyStrip_subset h) with h1 | h1
    · exact hstar h1
    · exact absurd h1 (by decide)

theorem clean_email_text_normalized_witness :
    isPySpace 'a' = false :=
  (clean_email_text_normalized ("a b".toList)).2.2.2.1 'a' (by decide)

/-- Claim C10: when some sentence of the document contains the filename
(case-insensitively), every emitted pair for that filename carries as context
the first such sentence of the whole text (stripped, whitespace-collapsed) —
independently of where the particular regex match occurred — and after
deduplication the result holds exactly one pair for that filename (at most
one in general, exactly one when the filename is matched at all). -/
theorem detect_context_first_sentence (nlp : PyStr → SpacyDoc) (text fn : PyStr)
    (s₀ : Sentence) (hf : firstSentWith (nlp text).sents fn = some s₀)
    (hne : pyStrip s₀.text ≠ []) :
    (∀ pr ∈ detect_attachments_with_context nlp text,
        pr.1 = fn → pr.2 = pyStrip (collapseWS (pyStrip s₀.text))) ∧
    (detect_attachments_with_context nlp text).countP (fun pr => pr.1 == fn) ≤ 1 ∧
    (fn ∈ (faMatches text).map Prod.snd →
      (detect_attachments_with_context nlp text).countP (fun pr => pr.1 == fn) = 1) := by
  have hkey : ∀ pr ∈ detect_attachments_with_context nlp text, pr.1 = fn →
      pr = (fn, pyStrip (collapseWS (pyStrip s₀.text))) := by
    intro pr hpr h1
    obtain ⟨q, hq, hqe⟩ := mem_detect.mp hpr
    have hq2 : q.2 = fn := by
      rw [← hqe] at h1
      exact h1
    rw [← hqe]
    rw [show attSnippet (nlp text).sents q.1 q.2 =
        attSnippet (nlp text).sents q.1 fn from by rw [hq2]]
    exact attSnippet_of_found hf hne q.1
  have hle : (detect_attachments_with_context nlp text).countP (fun pr => pr.1 == fn) ≤ 1 := by
    apply countP_le_one_of_unique _ _ (nodup_detect nlp text)
    intro a ha b hb hpa hpb
    have ha' : a.1 = fn := by simpa using hpa
    have hb' : b.1 = fn := by simpa using hpb
    rw [hkey a ha ha', hkey b hb hb']
  refine ⟨fun pr hpr h1 => by rw [hkey pr hpr h1], hle, ?_⟩
  intro hmem
  obtain ⟨q, hq, hq2⟩ := List.mem_map.mp hmem
  have hin : (fn, pyStrip (collapseWS (pyStrip s₀.text))) ∈
      detect_attachments_with_context nlp text := by
    apply mem_detect.mpr
    refine ⟨q, hq, ?_⟩
    rw [show attSnippet (nlp text).sents q.1 q.2 =
        attSnippet (nlp text).sents q.1 fn from by rw [hq2]]
    exact attSnippet_of_found hf hne q.1
  have hpos : 0 < (detect_attachments_with_context nlp text).countP (fun pr => pr.1 == fn) :=
    List.countP_pos_iff.mpr ⟨_, hin, by simp⟩
  omega

def wNlpA : PyStr → SpacyDoc := fun _ =>
  { ents := [], sents := [{ text := "See invoice.pdf ok.".toList, ents := [] }] }

set_option maxHeartbeats 2000000 in
theorem detect_context_first_sentence_witness :
    (detect_attachments_with_context wNlpA ("See invoice.pdf ok.".toList)).countP
      (fun pr => pr.1 == "invoice.pdf".toList) = 1 :=
  (detect_context_first_sentence wNlpA ("See invoice.pdf ok.".toList) ("invoice.pdf".toList)
    { text := "See invoice.pdf ok.".toList, ents := [] } (by decide) (by decide)).2.2 (by decide)
